import Mathlib

/-!
Verification of the changelog-generation pipeline
(`generate_changelog.py` of ROKT/rokt-workflows).

The Python source works over strings and Python `re` patterns.  We embed
each regular expression as an executable function on `List Char`, using
the deterministic backtracking behaviour of the concrete patterns
(analysed pattern by pattern below), and embed each Python function as a
Lean definition of the same name.  External processes (`git`, `gh`) are
modelled as oracle functions passed in explicitly.
-/

namespace Changelog

/-- Python `\s` on ASCII input: space, tab, newline, carriage return,
vertical tab, form feed. -/
def isPySpace (c : Char) : Bool :=
  c == ' ' || c == '\t' || c == '\n' || c == '\r' ||
  c == '\x0b' || c == '\x0c'

/-- Python `\w` on ASCII input: letters, digits, underscore. -/
def isWordChar (c : Char) : Bool :=
  c.isAlphanum || c == '_'

/-- Python `str.strip()` (both ends, whitespace). -/
def pyStrip (s : String) : String :=
  String.mk (((s.data.dropWhile isPySpace).reverse.dropWhile isPySpace).reverse)

/-- Python `str.rstrip("\n")`: remove all trailing newline characters. -/
def rstripNewlines (s : String) : String :=
  String.mk ((s.data.reverse.dropWhile (· == '\n')).reverse)

/-- Case-insensitive (ASCII) prefix test against a lowercase pattern,
returning the remainder on success.  Models an `re.IGNORECASE` literal. -/
def ciStrip : List Char → List Char → Option (List Char)
  | [], cs => some cs
  | _ :: _, [] => none
  | p :: ps, c :: cs => if c.toLower == p then ciStrip ps cs else none

/-- Substring search for a literal pattern (Python `re.search` on a
pattern with no metacharacters). -/
def containsSub (pat : List Char) : List Char → Bool
  | [] => pat.isEmpty
  | c :: cs => pat.isPrefixOf (c :: cs) || containsSub pat cs

/-- The tail `\s*(?P<desc>.*)$` of `_CC_REGEX`, anchored to the end of the
input.  `$` also matches just before a single trailing newline; `.` never
matches a newline, so a successful match forces the description to be
newline-free.  Returns the description group on success. -/
def descTail (r : List Char) : Option (List Char) :=
  let r1 := if r.getLast? == some '\n' then r.dropLast else r
  let d := r1.dropWhile isPySpace
  if d.contains '\n' then none else some d

/-- The `(?P<bang>!)?:` middle of `_CC_REGEX` followed by `descTail`,
starting right after the type (and optional scope). -/
def bangColon (t : List Char) (r : List Char) : Option (List Char × Bool × List Char) :=
  let br := match r with
    | '!' :: rr => (true, rr)
    | _ => (false, r)
  match br.2 with
  | ':' :: r3 => (descTail r3).map (fun d => (t, br.1, d))
  | _ => none

/-- The regex `_CC_REGEX = ^(?P<type>[a-zA-Z]+)(?:\([^)]*\))?(?P<bang>!)?:\s*(?P<desc>.*)$`
as a deterministic matcher.  The alternation points of the pattern never
need backtracking: the type is a maximal letter run (no later element can
consume a letter), the optional scope runs to the first `)` after a `(`,
and `!?` commits because `:` differs from `!`. -/
def ccMatch (cs : List Char) : Option (List Char × Bool × List Char) :=
  let t := cs.takeWhile Char.isAlpha
  let r1 := cs.dropWhile Char.isAlpha
  if t.isEmpty then none
  else
    match r1 with
    | '(' :: rest =>
        if rest.contains ')' then
          bangColon t ((rest.dropWhile (· != ')')).tail)
        else none
    | _ => bangColon t r1

/-- The pattern `\bBREAKING\b` (re.IGNORECASE) matching at the head of `cs`:
the lowered input starts with `breaking` and the following character, if
any, is not a word character.  The left boundary is checked by the caller. -/
def breakingHere (cs : List Char) : Bool :=
  match ciStrip ['b','r','e','a','k','i','n','g'] cs with
  | some [] => true
  | some (c :: _) => !isWordChar c
  | none => false

/-- The search `_BREAKING_REGEX.search`: scan for a whole-word, case-insensitive
occurrence of `BREAKING`; `prev` is the character before the current
position (none at the start of the string). -/
def breakingSearchAux : Option Char → List Char → Bool
  | _, [] => false
  | prev, c :: rest =>
      ((match prev with
        | none => true
        | some p => !isWordChar p) && breakingHere (c :: rest))
      || breakingSearchAux (some c) rest

def breakingSearch (cs : List Char) : Bool :=
  breakingSearchAux none cs

/-- The regex `_PR_NUMBER_REGEX = \(#(\d+)\)$` via `.search`: the string ends in
`(#<digits>)`; returns the digits group. -/
def prNumber (cs : List Char) : Option (List Char) :=
  match cs.reverse with
  | ')' :: r1 =>
      let ds := r1.takeWhile Char.isDigit
      if ds.isEmpty then none
      else
        match r1.drop ds.length with
        | '#' :: '(' :: _ => some ds.reverse
        | _ => none
  | _ => none

/-- The regex `_TRAILING_PR_REGEX = \s*\(#\d+\)$` used with `re.sub`: strip a
trailing ` (#<digits>)` (with any preceding whitespace run) if present. -/
def stripTrailingPR (cs : List Char) : List Char :=
  match cs.reverse with
  | ')' :: r1 =>
      let ds := r1.takeWhile Char.isDigit
      if ds.isEmpty then cs
      else
        match r1.drop ds.length with
        | '#' :: '(' :: r2 => (r2.dropWhile isPySpace).reverse
        | _ => cs
  | _ => cs

/-- Decimal value of a digit run (Python `int`). -/
def natOfDigits (ds : List Char) : Nat :=
  ds.foldl (fun n c => n * 10 + (c.toNat - 48)) 0

/-- The regex `_SEMVER_TAG_REGEX = ^v?(\d+\.\d+\.\d+)$` combined with the numeric
decomposition the source performs on a matching tag
(`tag.lstrip("v")` followed by `int` on the dot-separated parts). -/
def semverTriple (cs : List Char) : Option (Nat × Nat × Nat) :=
  let cs1 := match cs with
    | 'v' :: r => r
    | _ => cs
  let a := cs1.takeWhile Char.isDigit
  let r1 := cs1.dropWhile Char.isDigit
  if a.isEmpty then none
  else
    match r1 with
    | '.' :: r2 =>
        let b := r2.takeWhile Char.isDigit
        let r3 := r2.dropWhile Char.isDigit
        if b.isEmpty then none
        else
          match r3 with
          | '.' :: r4 =>
              let c := r4.takeWhile Char.isDigit
              let r5 := r4.dropWhile Char.isDigit
              if c.isEmpty || !r5.isEmpty then none
              else some (natOfDigits a, natOfDigits b, natOfDigits c)
          | _ => none
    | _ => none

/-- The regex `_PRE_RELEASE_REGEX = (alpha|beta|rc)` via `.search`. -/
def preRelease (cs : List Char) : Bool :=
  containsSub ['a','l','p','h','a'] cs || containsSub ['b','e','t','a'] cs ||
  containsSub ['r','c'] cs

/-- The branch `[Mm]erge.*to (main|master|workstation)` of `_SKIP_PATTERNS`,
after the literal `[Mm]erge` has been consumed: scan forward (through
non-newline characters only, as `.` never matches a newline) for
`to main`, `to master` or `to workstation`. -/
def toTargetHere (cs : List Char) : Bool :=
  ['t','o',' ','m','a','i','n'].isPrefixOf cs ||
  ['t','o',' ','m','a','s','t','e','r'].isPrefixOf cs ||
  ['t','o',' ','w','o','r','k','s','t','a','t','i','o','n'].isPrefixOf cs

def toTargetSearch : List Char → Bool
  | [] => false
  | c :: rest => toTargetHere (c :: rest) || (c != '\n' && toTargetSearch rest)

/-- Search for `[Mm]erge.*to (main|master|workstation)` anywhere. -/
def mergeToSearch : List Char → Bool
  | [] => false
  | c :: rest =>
      ((c == 'M' || c == 'm') && ['e','r','g','e'].isPrefixOf rest &&
        toTargetSearch (rest.drop 4))
      || mergeToSearch rest

/-- The search `_SKIP_PATTERNS.search`: the alternation of anchored noise prefixes and
the two unanchored merge forms. -/
def skipMatch (cs : List Char) : Bool :=
  "Merge pull request".data.isPrefixOf cs ||
  "Merge branch".data.isPrefixOf cs ||
  "Merge remote".data.isPrefixOf cs ||
  "Prepare release".data.isPrefixOf cs ||
  ("Create ".data.isPrefixOf cs && ((cs.drop 7).headD ' ').isDigit) ||
  mergeToSearch cs ||
  containsSub "Merge main to".data cs || containsSub "merge main to".data cs ||
  containsSub "Merge master to".data cs || containsSub "merge master to".data cs

/-! Constant tables of the source. -/

def CATEGORY_ORDER : List String :=
  ["Breaking Changes", "Removed", "Deprecated", "Added", "Changed", "Fixed",
   "Security"]

def _TYPE_TO_CATEGORY : List (String × String) :=
  [("feat", "Added"), ("fix", "Fixed"), ("security", "Security"),
   ("deprecate", "Deprecated"), ("revert", "Removed")]

/-- Runtime configuration (`Config` dataclass); the changelog path is part
of the file-system boundary and is not modelled. -/
structure Config where
  version : String
  repo_url : String
  tag_prefix : String
  exclude_types : List String
  today : String

/-- A single changelog entry (`Entry` dataclass). -/
structure Entry where
  category : String
  text : String
  deriving Repr, DecidableEq

/-- Result of one subprocess invocation; a run of the tool supplies these
through an oracle `List String → CmdResult`. -/
structure CmdResult where
  returncode : Int
  stdout : String

/-- Embedding of `_run_cmd`: stripped stdout, or the empty string on non-zero exit. -/
def _run_cmd (run : List String → CmdResult) (cmd : List String) : String :=
  let result := run cmd
  if result.returncode != 0 then "" else pyStrip result.stdout

/-- Embedding of `_map_category`. -/
def _map_category (cc_type : String) (breaking : Bool) : String :=
  if breaking then "Breaking Changes"
  else (_TYPE_TO_CATEGORY.lookup cc_type).getD "Changed"

/-- Embedding of `_capitalise_first`. -/
def _capitalise_first (text : String) : String :=
  match text.data with
  | [] => text
  | c :: rest => String.mk (c.toUpper :: rest)

/-- Embedding of `_parse_commit`: conventional-commit parse with the BREAKING-word
override applied to the resulting description. -/
def _parse_commit (title : String) : String × Bool × String :=
  match ccMatch title.data with
  | some (t, bang, d) =>
      (String.mk (t.map Char.toLower), bang || breakingSearch d, String.mk d)
  | none => ("", breakingSearch title.data, title)

/-- The `gh pr view` argument list used by `_fetch_pr_title`. -/
def ghArgs (pr_number : String) : List String :=
  ["gh", "pr", "view", pr_number, "--json", "title", "--jq", ".title"]

/-- Embedding of `_fetch_pr_title`: `title or None`. -/
def _fetch_pr_title (run : List String → CmdResult) (pr_number : String) :
    Option String :=
  let title := _run_cmd run (ghArgs pr_number)
  if title == "" then none else some title

/-- The title-resolution step of `_entry_from_commit`: replace the raw
message by the fetched PR title when a trailing `(#N)` marker is present
and the lookup succeeds. -/
def resolvedTitle (run : List String → CmdResult) (message : String) : String :=
  match (prNumber message.data).map String.mk with
  | some n =>
      match _fetch_pr_title run n with
      | some t => t
      | none => message
  | none => message

/-- Embedding of `_entry_from_commit`. -/
def _entry_from_commit (run : List String → CmdResult) (message : String)
    (cfg : Config) : Option Entry :=
  if skipMatch message.data then none
  else
    let pr_number := (prNumber message.data).map String.mk
    let title := resolvedTitle run message
    let p := _parse_commit title
    let cc_type := p.1
    let breaking := p.2.1
    let description := p.2.2
    if !breaking && cc_type != "" && cfg.exclude_types.contains cc_type then none
    else
      let category := _map_category cc_type breaking
      let description := String.mk (stripTrailingPR (_capitalise_first description).data)
      let text := match pr_number with
        | some n =>
            "- " ++ description ++ " ([#" ++ n ++ "](" ++ cfg.repo_url ++
              "/pull/" ++ n ++ "))"
        | none => "- " ++ description
      some { category := category, text := text }

/-- The per-message loop of `collect_entries`, after the `git log` output
has been split into messages. -/
def collectEntriesFromMessages (run : List String → CmdResult)
    (messages : List String) (cfg : Config) : List Entry :=
  messages.filterMap (fun m => _entry_from_commit run m cfg)

/-- The prefix filter of `find_last_tag`: a literal-prefix pattern built
with `re.escape` when a prefix is configured, else the `^v?\d` heuristic. -/
def tagPrefixOk ( tag_prefix : String) (cs : List Char) : Bool :=
  if tag_prefix.isEmpty then
    match cs with
    | 'v' :: c :: _ => c.isDigit
    | c :: _ => c.isDigit
    | [] => false
  else tag_prefix.data.isPrefixOf cs

/-- Strict lexicographic order on version triples (Python tuple `<`). -/
def tripleLt (a b : Nat × Nat × Nat) : Bool :=
  Nat.blt a.1 b.1 ||
  (a.1 == b.1 && (Nat.blt a.2.1 b.2.1 ||
    (a.2.1 == b.2.1 && Nat.blt a.2.2 b.2.2)))

/-- The filter body of `find_last_tag` on one tag: prefix check, exact
semver match, pre-release exclusion, numeric decomposition. -/
def tagCandidate ( tag_prefix tag : String) : Option ((Nat × Nat × Nat) × String) :=
  if !tagPrefixOk tag_prefix tag.data then none
  else
    match semverTriple tag.data with
    | none => none
    | some parts => if preRelease tag.data then none else some (parts, tag)

/-- The selection step of `find_last_tag`: the source stable-sorts the
candidates by triple, descending, and returns the first; a left-to-right
pass keeping the first strictly-greatest candidate computes the same
element. -/
def selectBest (v : (Nat × Nat × Nat) × String)
    (vs : List ((Nat × Nat × Nat) × String)) : (Nat × Nat × Nat) × String :=
  vs.foldl (fun best x => if tripleLt best.1 x.1 then x else best) v

/-- Embedding of `find_last_tag`, taking the tag list the `git tag` oracle produced. -/
def find_last_tag (raw_tags : List String) ( tag_prefix : String) :
    Option String :=
  if raw_tags.isEmpty then none
  else
    match raw_tags.filterMap (fun tag => tagCandidate tag_prefix tag) with
    | [] => none
    | v :: vs => some (selectBest v vs).2

/-- Embedding of `build_section`: the imperative accumulation loop over
`CATEGORY_ORDER`. -/
def build_section (entries : List Entry) : String :=
  String.intercalate "\n"
    (CATEGORY_ORDER.foldl
      (fun lines category =>
        let cat_entries := (entries.filter (fun e => e.category == category)).map
          Entry.text
        if cat_entries.isEmpty then lines
        else lines ++ ("### " ++ category) :: "" :: cat_entries ++ [""])
      [])

/-! Document manipulation (`_insert_version_section`,
`_update_comparison_links`).  A document is the list of its lines with
line terminators kept (`splitlines(keepends=True)`). -/

/-- The regex `_UNRELEASED_HEADING_REGEX = ^##\s+\[Unreleased\]` (IGNORECASE),
via `.match`. -/
def unreleasedHeading (cs : List Char) : Bool :=
  match cs with
  | '#' :: '#' :: rest =>
      !(rest.takeWhile isPySpace).isEmpty &&
        (ciStrip "[unreleased]".data (rest.dropWhile isPySpace)).isSome
  | _ => false

/-- The `\[.+\]` tail of `_VERSION_HEADING_REGEX`: a `[`, then a `]`
further right with at least one character (none of them a newline)
in between. -/
def closeAfterOne : List Char → Bool
  | [] => false
  | c :: rest => c == ']' || (c != '\n' && closeAfterOne rest)

/-- The regex `_VERSION_HEADING_REGEX = ^##\s+\[.+\]`, via `.match`. -/
def versionHeading (cs : List Char) : Bool :=
  match cs with
  | '#' :: '#' :: rest =>
      !(rest.takeWhile isPySpace).isEmpty &&
        (match rest.dropWhile isPySpace with
         | '[' :: body =>
             match body with
             | [] => false
             | c :: body' => c != '\n' && closeAfterOne body'
         | _ => false)
  | _ => false

/-- The regex `_UNRELEASED_LINK_REGEX = ^\[unreleased\]:` (IGNORECASE), via `.match`. -/
def unreleasedLink (cs : List Char) : Bool :=
  (ciStrip "[unreleased]:".data cs).isSome

/-- The per-line tests of the insertion pass, applied to a line with its
trailing newlines removed (`line.rstrip("\n")`). -/
def isUnrelLine (line : String) : Bool :=
  unreleasedHeading (rstripNewlines line).data

def isVerLine (line : String) : Bool :=
  versionHeading (rstripNewlines line).data

/-- The line loop of `_insert_version_section`, carrying the
`in_unreleased` and `inserted` flags, together with the end-of-input
append. -/
def insertAux (new_section : String) :
    List String → Bool → Bool → List String
  | [], in_unreleased, inserted =>
      if in_unreleased && !inserted then ["\n", new_section ++ "\n"] else []
  | line :: rest, in_unreleased, inserted =>
      if !in_unreleased && isUnrelLine line then
        line :: insertAux new_section rest true inserted
      else if in_unreleased && !inserted && isVerLine line then
        "\n" :: (new_section ++ "\n") :: "\n" :: line ::
          insertAux new_section rest true true
      else line :: insertAux new_section rest in_unreleased inserted

/-- Embedding of `_insert_version_section`. -/
def _insert_version_section (lines : List String) (new_section : String) :
    List String :=
  insertAux new_section lines false false

/-- The rewritten `[unreleased]` comparison link. -/
def newUnreleasedLink (cfg : Config) : String :=
  "[unreleased]: " ++ cfg.repo_url ++ "/compare/" ++ cfg.version ++ "...HEAD\n"

/-- The added link for the new version: against the prior tag if one
exists, else the release location. -/
def newVersionLink (cfg : Config) (last_tag : Option String) : String :=
  match last_tag with
  | some t =>
      "[" ++ cfg.version ++ "]: " ++ cfg.repo_url ++ "/compare/" ++ t ++
        "..." ++ cfg.version ++ "\n"
  | none =>
      "[" ++ cfg.version ++ "]: " ++ cfg.repo_url ++ "/releases/tag/" ++
        cfg.version ++ "\n"

/-- The line loop of `_update_comparison_links`, carrying the `updated`
flag. -/
def updateLinksAux (cfg : Config) (last_tag : Option String) :
    List String → Bool → List String
  | [], _ => []
  | line :: rest, updated =>
      if !updated && unreleasedLink line.data then
        newUnreleasedLink cfg :: newVersionLink cfg last_tag ::
          updateLinksAux cfg last_tag rest true
      else line :: updateLinksAux cfg last_tag rest updated

/-- Embedding of `_update_comparison_links`. -/
def _update_comparison_links (lines : List String) (cfg : Config)
    (last_tag : Option String) : List String :=
  updateLinksAux cfg last_tag lines false

/-! Derived notions used to state the claims. -/

/-- The category the classifier assigns to a commit title. -/
def classifyCategory (title : String) : String :=
  _map_category (_parse_commit title).1 (_parse_commit title).2.1

/-- Whether a title is breaking in the sense of the spec: a `!` marker in
a conventional-commit match, or the word `BREAKING` in the (possibly
stripped) description. -/
def titleIsBreaking (title : String) : Bool :=
  match ccMatch title.data with
  | some p => p.2.1 || breakingSearch p.2.2
  | none => breakingSearch title.data

/-- The lower-cased conventional-commit type of a title, empty when the
title does not match the conventional-commit grammar. -/
def titleType (title : String) : String :=
  match ccMatch title.data with
  | some p => String.mk (p.1.map Char.toLower)
  | none => ""

/-- Declarative rendering of the section builder, following the spec's
words: concatenate, over the fixed category order, the block of each
inhabited category. -/
def buildSectionFlat (entries : List Entry) : String :=
  String.intercalate "\n"
    ((CATEGORY_ORDER.map (fun category =>
        let cat_entries := (entries.filter (fun e => e.category == category)).map
          Entry.text
        if cat_entries.isEmpty then []
        else ("### " ++ category) :: "" :: cat_entries ++ [""])).flatten)

end Changelog

namespace Changelog

/-- C1. Category resolution precedence: a breaking title (bang marker
or BREAKING word in the description) is always classified Breaking
Changes; otherwise the lower-cased type goes through the fixed table
feat→Added, fix→Fixed, security→Security, deprecate→Deprecated,
revert→Removed, and any unmapped or absent type (including titles that do
not match the conventional-commit grammar) yields Changed. -/
theorem c1_category_resolution_precedence :
    (∀ title, classifyCategory title =
      if titleIsBreaking title then "Breaking Changes"
      else ((_TYPE_TO_CATEGORY.lookup (titleType title)).getD "Changed"))
    ∧ _TYPE_TO_CATEGORY.lookup "feat" = some "Added"
    ∧ _TYPE_TO_CATEGORY.lookup "fix" = some "Fixed"
    ∧ _TYPE_TO_CATEGORY.lookup "security" = some "Security"
    ∧ _TYPE_TO_CATEGORY.lookup "deprecate" = some "Deprecated"
    ∧ _TYPE_TO_CATEGORY.lookup "revert" = some "Removed"
    ∧ _TYPE_TO_CATEGORY.lookup "chore" = none
    ∧ classifyCategory "chore: tidy things" = "Changed"
    ∧ classifyCategory "not a conventional commit" = "Changed" := by
  refine ⟨?_, by decide, by decide, by decide, by decide, by decide,
    by decide, by decide, by decide⟩
  intro title
  unfold classifyCategory titleIsBreaking titleType _parse_commit _map_category
  cases h : ccMatch title.data with
  | none => simp
  | some p => rcases p with ⟨t, b, d⟩; simp

/-- C10. The breaking-word override is case-insensitive: whenever the
whole word `breaking` occurs in the parsed description in any letter
case, classification forces the Breaking Changes category. -/
theorem c10_breaking_word_case_insensitive :
    (∀ title, breakingSearch (_parse_commit title).2.2.data = true →
      classifyCategory title = "Breaking Changes")
    ∧ classifyCategory "feat: breaking change" = "Breaking Changes"
    ∧ classifyCategory "chore: this is BrEaKiNg stuff" = "Breaking Changes"
    ∧ classifyCategory "Totally Breaking everything" = "Breaking Changes"
    ∧ classifyCategory "feat: breakingly good" = "Added" := by
  refine ⟨?_, by decide, by decide, by decide, by decide⟩
  intro title h
  unfold classifyCategory _parse_commit _map_category
  unfold _parse_commit at h
  cases hm : ccMatch title.data with
  | none => rw [hm] at h; simp at h ⊢; simp [h]
  | some p =>
      rcases p with ⟨t, b, d⟩
      rw [hm] at h; simp at h ⊢; simp [h]

/-- Witness for `c10_breaking_word_case_insensitive` at a concrete
lower-case title. -/
theorem c10_breaking_word_witness :
    classifyCategory "docs: breaking docs" = "Breaking Changes" :=
  c10_breaking_word_case_insensitive.1 "docs: breaking docs" (by decide)

/-- An accumulating fold that only ever appends to its accumulator
flattens to the concatenation of the per-element blocks. -/
theorem foldl_append_blocks (entries : List Entry) :
    ∀ (cats : List String) (acc : List String),
      cats.foldl
        (fun lines category =>
          let cat_entries :=
            (entries.filter (fun e => e.category == category)).map Entry.text
          if cat_entries.isEmpty then lines
          else lines ++ ("### " ++ category) :: "" :: cat_entries ++ [""])
        acc
      = acc ++ (cats.map (fun category =>
          let cat_entries :=
            (entries.filter (fun e => e.category == category)).map Entry.text
          if cat_entries.isEmpty then []
          else ("### " ++ category) :: "" :: cat_entries ++ [""])).flatten := by
  intro cats
  induction cats with
  | nil => intro acc; simp
  | cons c cs ih =>
      intro acc
      by_cases h :
          ((entries.filter (fun e => e.category == c)).map Entry.text).isEmpty
      · simp only [List.foldl_cons, List.map_cons, List.flatten_cons, h,
          if_true, if_pos h, ih]
        simp
      · simp only [List.foldl_cons, List.map_cons, List.flatten_cons,
          if_neg h, ih]
        simp

/-- C7. The section builder emits, per category in the fixed order
Breaking Changes, Removed, Deprecated, Added, Changed, Fixed, Security, a
level-3 heading followed by that category's entry lines in input order,
emits nothing for empty categories, and renders an empty entry list as
the empty string. -/
theorem c7_section_builder :
    (∀ entries, build_section entries = buildSectionFlat entries)
    ∧ CATEGORY_ORDER =
        ["Breaking Changes", "Removed", "Deprecated", "Added", "Changed",
         "Fixed", "Security"]
    ∧ build_section [] = ""
    ∧ build_section
        [⟨"Fixed", "- f"⟩, ⟨"Added", "- a"⟩, ⟨"Breaking Changes", "- b"⟩,
         ⟨"Added", "- a2"⟩]
      = "### Breaking Changes\n\n- b\n\n### Added\n\n- a\n- a2\n\n### Fixed\n\n- f\n" := by
  refine ⟨?_, rfl, by decide, by decide⟩
  intro entries
  unfold build_section buildSectionFlat
  rw [foldl_append_blocks]
  simp

/-! Characterization of the two document passes. -/

theorem insertAux_skip_before (sec : String) :
    ∀ (A rest : List String), (∀ l ∈ A, isUnrelLine l = false) →
      insertAux sec (A ++ rest) false false =
        A ++ insertAux sec rest false false := by
  intro A
  induction A with
  | nil => intro rest _; simp
  | cons a A ih =>
      intro rest h
      have ha : isUnrelLine a = false := h a (by simp)
      simp [insertAux, ha, ih rest (fun l hl => h l (by simp [hl]))]

theorem insertAux_copy_inside (sec : String) :
    ∀ (C rest : List String), (∀ l ∈ C, isVerLine l = false) →
      insertAux sec (C ++ rest) true false =
        C ++ insertAux sec rest true false := by
  intro C
  induction C with
  | nil => intro rest _; simp
  | cons c C ih =>
      intro rest h
      have hc : isVerLine c = false := h c (by simp)
      simp [insertAux, hc, ih rest (fun l hl => h l (by simp [hl]))]

theorem insertAux_after_insert (sec : String) :
    ∀ D : List String, insertAux sec D true true = D := by
  intro D
  induction D with
  | nil => simp [insertAux]
  | cons d D ih => simp [insertAux, ih]

/-- C2. In a document containing an `[Unreleased]` heading, the
insertion pass copies everything outside the insertion point unchanged
and in order, inserting the section exactly once: before the first
subsequent `## [...]` heading (wrapped in blank lines) when one exists,
else as a blank line plus the section appended at the end. -/
theorem c2_insert_section_characterization (sec : String) :
    (∀ (A : List String) (u : String) (C : List String) (v : String)
        (D : List String),
      (∀ l ∈ A, isUnrelLine l = false) → isUnrelLine u = true →
      (∀ l ∈ C, isVerLine l = false) → isVerLine v = true →
      _insert_version_section (A ++ u :: (C ++ v :: D)) sec =
        A ++ u :: (C ++ "\n" :: (sec ++ "\n") :: "\n" :: v :: D))
    ∧ (∀ (A : List String) (u : String) (B : List String),
      (∀ l ∈ A, isUnrelLine l = false) → isUnrelLine u = true →
      (∀ l ∈ B, isVerLine l = false) →
      _insert_version_section (A ++ u :: B) sec =
        A ++ u :: (B ++ ["\n", sec ++ "\n"])) := by
  constructor
  · intro A u C v D hA hu hC hv
    unfold _insert_version_section
    rw [insertAux_skip_before sec A _ hA]
    have hstep : insertAux sec (u :: (C ++ v :: D)) false false =
        u :: insertAux sec (C ++ v :: D) true false := by
      simp [insertAux, hu]
    rw [hstep, insertAux_copy_inside sec C _ hC]
    have hins : insertAux sec (v :: D) true false =
        "\n" :: (sec ++ "\n") :: "\n" :: v :: insertAux sec D true true := by
      simp [insertAux, hv]
    rw [hins, insertAux_after_insert sec D]
  · intro A u B hA hu hB
    unfold _insert_version_section
    rw [insertAux_skip_before sec A _ hA]
    have hstep : insertAux sec (u :: B) false false =
        u :: insertAux sec B true false := by
      simp [insertAux, hu]
    rw [hstep]
    have hend : insertAux sec (B ++ []) true false =
        B ++ insertAux sec [] true false := insertAux_copy_inside sec B [] hB
    rw [List.append_nil] at hend
    rw [hend]
    simp [insertAux]

/-- Witness for `c2_insert_section_characterization`: both branches at a
concrete small document. -/
theorem c2_insert_section_witness :
    _insert_version_section
        ["# T\n", "## [Unreleased]\n", "\n", "## [1.0.0] - 2024-01-01\n",
         "x\n"] "SEC"
      = ["# T\n", "## [Unreleased]\n", "\n", "\n", "SEC\n", "\n",
         "## [1.0.0] - 2024-01-01\n", "x\n"]
    ∧ _insert_version_section ["# T\n", "## [Unreleased]\n", "\n", "txt\n"]
        "SEC"
      = ["# T\n", "## [Unreleased]\n", "\n", "txt\n", "\n", "SEC\n"] := by
  constructor
  · exact (c2_insert_section_characterization "SEC").1 ["# T\n"]
      "## [Unreleased]\n" ["\n"] "## [1.0.0] - 2024-01-01\n" ["x\n"]
      (by decide) (by decide) (by decide) (by decide)
  · exact (c2_insert_section_characterization "SEC").2 ["# T\n"]
      "## [Unreleased]\n" ["\n", "txt\n"] (by decide) (by decide) (by decide)

/-- C3, counterexample. On a document with no recognizable
`[Unreleased]` heading the insertion pass returns the document unchanged:
in particular the new section is *not* appended at the end, contrary to
the claim. -/
theorem c3_counterexample_no_append :
    _insert_version_section ["# Changelog\n", "some text\n"]
        "## [1.0.0] - 2024-01-01\n\n- X"
      = ["# Changelog\n", "some text\n"]
    ∧ _insert_version_section ["# Changelog\n", "some text\n"]
        "## [1.0.0] - 2024-01-01\n\n- X"
      ≠ ["# Changelog\n", "some text\n"] ++
          ["\n", "## [1.0.0] - 2024-01-01\n\n- X" ++ "\n"] := by
  constructor
  · decide
  · decide

/-- C3, amended. On a document with no recognizable `[Unreleased]`
heading the merge does not fail and degrades by passing every line
through unchanged; the new section is not inserted anywhere. -/
theorem c3_missing_heading_passthrough :
    ∀ (lines : List String) (sec : String),
      (∀ l ∈ lines, isUnrelLine l = false) →
      _insert_version_section lines sec = lines := by
  intro lines sec h
  unfold _insert_version_section
  have := insertAux_skip_before sec lines [] h
  rw [List.append_nil] at this
  rw [this]
  simp [insertAux]

/-- Witness for `c3_missing_heading_passthrough`. -/
theorem c3_missing_heading_witness :
    _insert_version_section ["# X\n", "body\n"] "S" = ["# X\n", "body\n"] :=
  c3_missing_heading_passthrough ["# X\n", "body\n"] "S" (by decide)

theorem updateLinksAux_skip (cfg : Config) (last_tag : Option String) :
    ∀ (A rest : List String), (∀ l ∈ A, unreleasedLink l.data = false) →
      updateLinksAux cfg last_tag (A ++ rest) false =
        A ++ updateLinksAux cfg last_tag rest false := by
  intro A
  induction A with
  | nil => intro rest _; simp
  | cons a A ih =>
      intro rest h
      have ha : unreleasedLink a.data = false := h a (by simp)
      simp [updateLinksAux, ha, ih rest (fun l hl => h l (by simp [hl]))]

theorem updateLinksAux_done (cfg : Config) (last_tag : Option String) :
    ∀ B : List String, updateLinksAux cfg last_tag B true = B := by
  intro B
  induction B with
  | nil => simp [updateLinksAux]
  | cons b B ih => simp [updateLinksAux, ih]

/-- The configuration of the comparison-link scenario of the claim. -/
def cfgLinks : Config :=
  { version := "v1.3.0", repo_url := "URL", tag_prefix := "v",
    exclude_types := [], today := "2024-06-01" }

/-- C4. The comparison-link pass replaces only the first
`[unreleased]:` line (case-insensitive) by the new-version...HEAD link
followed by one link for the new version (against the prior tag when one
exists, else the release location), copies every other line unchanged,
and leaves a document with no such line untouched; with prior tag v1.2.0
and new version v1.3.0 the two produced lines are exactly the ones
stated. -/
theorem c4_comparison_link_rewrite :
    (∀ (cfg : Config) (last_tag : Option String) (A : List String)
        (u : String) (B : List String),
      (∀ l ∈ A, unreleasedLink l.data = false) →
      unreleasedLink u.data = true →
      _update_comparison_links (A ++ u :: B) cfg last_tag =
        A ++ newUnreleasedLink cfg :: newVersionLink cfg last_tag :: B)
    ∧ (∀ (cfg : Config) (last_tag : Option String) (lines : List String),
      (∀ l ∈ lines, unreleasedLink l.data = false) →
      _update_comparison_links lines cfg last_tag = lines)
    ∧ newUnreleasedLink cfgLinks = "[unreleased]: URL/compare/v1.3.0...HEAD\n"
    ∧ newVersionLink cfgLinks (some "v1.2.0")
        = "[v1.3.0]: URL/compare/v1.2.0...v1.3.0\n"
    ∧ newVersionLink cfgLinks none = "[v1.3.0]: URL/releases/tag/v1.3.0\n" := by
  refine ⟨?_, ?_, rfl, rfl, rfl⟩
  · intro cfg last_tag A u B hA hu
    unfold _update_comparison_links
    rw [updateLinksAux_skip cfg last_tag A _ hA]
    have hstep : updateLinksAux cfg last_tag (u :: B) false =
        newUnreleasedLink cfg :: newVersionLink cfg last_tag ::
          updateLinksAux cfg last_tag B true := by
      simp [updateLinksAux, hu]
    rw [hstep, updateLinksAux_done cfg last_tag B]
  · intro cfg last_tag lines h
    unfold _update_comparison_links
    have := updateLinksAux_skip cfg last_tag lines [] h
    rw [List.append_nil] at this
    rw [this]
    simp [updateLinksAux]

/-- Witness for `c4_comparison_link_rewrite`: the scenario of the claim,
with a second `[v1.2.0]` link line left untouched. -/
theorem c4_comparison_link_witness :
    _update_comparison_links
        ["lead\n", "[unreleased]: URL/compare/v1.2.0...HEAD\n",
         "[v1.2.0]: old\n"] cfgLinks (some "v1.2.0")
      = ["lead\n", "[unreleased]: URL/compare/v1.3.0...HEAD\n",
         "[v1.3.0]: URL/compare/v1.2.0...v1.3.0\n", "[v1.2.0]: old\n"] :=
  c4_comparison_link_rewrite.1 cfgLinks (some "v1.2.0") ["lead\n"]
    "[unreleased]: URL/compare/v1.2.0...HEAD\n" ["[v1.2.0]: old\n"]
    (by decide) (by decide)

/-! Order lemmas for the version-triple comparison. -/

theorem tripleLt_irrefl (a : Nat × Nat × Nat) : tripleLt a a = false := by
  cases h : tripleLt a a with
  | false => rfl
  | true =>
      rcases a with ⟨a1, a2, a3⟩
      simp only [tripleLt, Bool.or_eq_true, Bool.and_eq_true, beq_iff_eq,
        Nat.blt_eq] at h
      omega

theorem tripleLt_trans {a b c : Nat × Nat × Nat} (h1 : tripleLt a b = true)
    (h2 : tripleLt b c = true) : tripleLt a c = true := by
  rcases a with ⟨a1, a2, a3⟩
  rcases b with ⟨b1, b2, b3⟩
  rcases c with ⟨c1, c2, c3⟩
  simp only [tripleLt, Bool.or_eq_true, Bool.and_eq_true, beq_iff_eq,
    Nat.blt_eq] at h1 h2 ⊢
  omega

theorem tripleLt_of_lt_of_not_lt {a b c : Nat × Nat × Nat}
    (h1 : tripleLt a b = true) (h2 : tripleLt c b = false) :
    tripleLt a c = true := by
  rcases a with ⟨a1, a2, a3⟩
  rcases b with ⟨b1, b2, b3⟩
  rcases c with ⟨c1, c2, c3⟩
  have h2' : ¬ tripleLt (c1, c2, c3) (b1, b2, b3) = true := by simp [h2]
  simp only [tripleLt, Bool.or_eq_true, Bool.and_eq_true, beq_iff_eq,
    Nat.blt_eq] at h1 h2' ⊢
  omega

theorem selectBest_nil (v : (Nat × Nat × Nat) × String) :
    selectBest v [] = v := rfl

theorem selectBest_cons (v y : (Nat × Nat × Nat) × String)
    (ys : List ((Nat × Nat × Nat) × String)) :
    selectBest v (y :: ys)
      = selectBest (if tripleLt v.1 y.1 then y else v) ys := by
  simp [selectBest]

/-- The selected candidate is one of the candidates. -/
theorem selectBest_mem :
    ∀ (vs : List ((Nat × Nat × Nat) × String)) (v : (Nat × Nat × Nat) × String),
      selectBest v vs ∈ v :: vs := by
  intro vs
  induction vs with
  | nil => intro v; simp [selectBest_nil]
  | cons y ys ih =>
      intro v
      rw [selectBest_cons]
      by_cases hlt : tripleLt v.1 y.1 = true
      · rw [if_pos hlt]
        rcases List.mem_cons.mp (ih y) with h | h
        · exact List.mem_cons.mpr (Or.inr (List.mem_cons.mpr (Or.inl h)))
        · exact List.mem_cons.mpr (Or.inr (List.mem_cons.mpr (Or.inr h)))
      · rw [if_neg hlt]
        rcases List.mem_cons.mp (ih v) with h | h
        · exact List.mem_cons.mpr (Or.inl h)
        · exact List.mem_cons.mpr (Or.inr (List.mem_cons.mpr (Or.inr h)))

/-- The selected candidate is never strictly below the starting value. -/
theorem selectBest_not_lt_start :
    ∀ (vs : List ((Nat × Nat × Nat) × String)) (v : (Nat × Nat × Nat) × String),
      tripleLt (selectBest v vs).1 v.1 = false := by
  intro vs
  induction vs with
  | nil => intro v; rw [selectBest_nil]; exact tripleLt_irrefl _
  | cons y ys ih =>
      intro v
      rw [selectBest_cons]
      by_cases hlt : tripleLt v.1 y.1 = true
      · rw [if_pos hlt]
        cases hb : tripleLt (selectBest y ys).1 v.1 with
        | false => rfl
        | true => exact absurd (tripleLt_trans hb hlt) (by simp [ih y])
      · rw [if_neg hlt]
        exact ih v

/-- No candidate in the list strictly beats the selected candidate. -/
theorem selectBest_max :
    ∀ (vs : List ((Nat × Nat × Nat) × String)) (v : (Nat × Nat × Nat) × String),
      ∀ x ∈ vs, tripleLt (selectBest v vs).1 x.1 = false := by
  intro vs
  induction vs with
  | nil => intro v x hx; exact absurd hx (by simp)
  | cons y ys ih =>
      intro v x hx
      rw [selectBest_cons]
      rcases List.mem_cons.mp hx with rfl | hx'
      · by_cases hlt : tripleLt v.1 x.1 = true
        · rw [if_pos hlt]
          exact selectBest_not_lt_start ys x
        · rw [if_neg hlt]
          have hvx : tripleLt v.1 x.1 = false := by
            cases h : tripleLt v.1 x.1 with
            | false => rfl
            | true => exact absurd h hlt
          cases hb : tripleLt (selectBest v ys).1 x.1 with
          | false => rfl
          | true =>
              exact absurd (tripleLt_of_lt_of_not_lt hb hvx)
                (by simp [selectBest_not_lt_start ys v])
      · by_cases hlt : tripleLt v.1 y.1 = true
        · rw [if_pos hlt]; exact ih y x hx'
        · rw [if_neg hlt]; exact ih v x hx'

/-- The selection fold of `find_last_tag` returns an element of its input
that no input element strictly beats. -/
theorem foldl_best_spec
    (vs : List ((Nat × Nat × Nat) × String)) (v : (Nat × Nat × Nat) × String) :
    selectBest v vs ∈ v :: vs
    ∧ ∀ x ∈ v :: vs, tripleLt (selectBest v vs).1 x.1 = false := by
  refine ⟨selectBest_mem vs v, ?_⟩
  intro x hx
  rcases List.mem_cons.mp hx with rfl | hx'
  · exact selectBest_not_lt_start vs x
  · exact selectBest_max vs v x hx'

/-- A candidate produced by `tagCandidate` carries the tag it was built
from. -/
theorem tagCandidate_snd (pfx tag : String) (pr : (Nat × Nat × Nat) × String)
    (h : tagCandidate pfx tag = some pr) : pr.2 = tag := by
  unfold tagCandidate at h
  split at h
  · exact absurd h (by simp)
  · split at h
    · exact absurd h (by simp)
    · split at h
      · exact absurd h (by simp)
      · cases h
        rfl

/-- C5. Tag resolution keeps only labels passing the prefix filter,
the exact `v?MAJOR.MINOR.PATCH` parse and the pre-release exclusion, and
returns a qualifying label whose numeric triple no qualifying label
strictly beats, or no tag when none qualify; on the labels of the claim
with prefix "v" it returns v1.10.0. -/
theorem c5_tag_resolution :
    find_last_tag ["v1.2.3", "v1.10.0", "v2.0.0-beta", "v1.9.9"] "v"
        = some "v1.10.0"
    ∧ (∀ (tags : List String) (pfx t : String),
        find_last_tag tags pfx = some t →
        t ∈ tags ∧ ∃ a, tagCandidate pfx t = some a ∧
          ∀ u ∈ tags, ∀ b, tagCandidate pfx u = some b →
            tripleLt a.1 b.1 = false)
    ∧ (∀ (tags : List String) (pfx : String),
        (∀ u ∈ tags, tagCandidate pfx u = none) →
        find_last_tag tags pfx = none) := by
  refine ⟨by decide, ?_, ?_⟩
  · intro tags pfx t h
    unfold find_last_tag at h
    by_cases hemp : tags.isEmpty
    · rw [if_pos hemp] at h
      exact absurd h (by simp)
    · rw [if_neg hemp] at h
      cases hfm : tags.filterMap (fun tag => tagCandidate pfx tag) with
      | nil => rw [hfm] at h; exact absurd h (by simp)
      | cons v vs =>
          rw [hfm] at h
          obtain ⟨hmem, hmax⟩ := foldl_best_spec vs v
          set best := selectBest v vs with hbest
          have ht : best.2 = t := by
            simpa using h
          have hmem' : best ∈ tags.filterMap (fun tag => tagCandidate pfx tag) := by
            rw [hfm]; exact hmem
          obtain ⟨u, hu, hcu⟩ := List.mem_filterMap.mp hmem'
          have hut : u = t := by
            rw [← ht]
            exact (tagCandidate_snd pfx u best hcu).symm
          subst hut
          refine ⟨hu, best, hcu, ?_⟩
          intro w hw b hb
          have hbmem : b ∈ tags.filterMap (fun tag => tagCandidate pfx tag) :=
            List.mem_filterMap.mpr ⟨w, hw, hb⟩
          rw [hfm] at hbmem
          exact hmax b hbmem
  · intro tags pfx h
    have hfm : tags.filterMap (fun tag => tagCandidate pfx tag) = [] :=
      List.filterMap_eq_nil_iff.mpr h
    unfold find_last_tag
    by_cases hemp : tags.isEmpty
    · rw [if_pos hemp]
    · rw [if_neg hemp, hfm]

/-- Witness for `c5_tag_resolution`: both universal parts instantiated at
concrete tag lists. -/
theorem c5_tag_resolution_witness :
    ("v1.10.0" ∈ (["v1.2.3", "v1.10.0", "v2.0.0-beta", "v1.9.9"] : List String)
      ∧ ∃ a, tagCandidate "v" "v1.10.0" = some a ∧
          ∀ u ∈ (["v1.2.3", "v1.10.0", "v2.0.0-beta", "v1.9.9"] : List String),
            ∀ b, tagCandidate "v" u = some b → tripleLt a.1 b.1 = false)
    ∧ find_last_tag ["vega", "v2.0.0-rc"] "v" = none :=
  ⟨c5_tag_resolution.2.1 ["v1.2.3", "v1.10.0", "v2.0.0-beta", "v1.9.9"] "v"
      "v1.10.0" (by decide),
   c5_tag_resolution.2.2 ["vega", "v2.0.0-rc"] "v" (by decide)⟩

/-- An oracle on which every subprocess fails (non-zero exit). -/
def runNoLookup : List String → CmdResult := fun _ => ⟨1, ""⟩

/-- A configuration that excludes the `feat` type. -/
def cfgExclFeat : Config :=
  { version := "v2.0.0", repo_url := "URL", tag_prefix := "",
    exclude_types := ["feat"], today := "2024-06-01" }

/-- C6. The exclude-set filter runs after classification: a breaking
commit is never dropped by it (even when its type is excluded and the
breaking flag came only from the word BREAKING), while a non-breaking
commit whose resolved, non-empty type is in the configured exclude-set is
always dropped. -/
theorem c6_breaking_never_excluded :
    ∀ (run : List String → CmdResult) (msg : String) (cfg : Config),
      (skipMatch msg.data = false →
        (_parse_commit (resolvedTitle run msg)).2.1 = true →
        _entry_from_commit run msg cfg ≠ none)
      ∧ (skipMatch msg.data = false →
        "" ∉ cfg.exclude_types →
        (_parse_commit (resolvedTitle run msg)).2.1 = false →
        (_parse_commit (resolvedTitle run msg)).1 ∈ cfg.exclude_types →
        _entry_from_commit run msg cfg = none) := by
  intro run msg cfg
  constructor
  · intro hskip hbr
    unfold _entry_from_commit
    simp [hskip, hbr]
  · intro hskip hempty hbr hmem
    have hne : (_parse_commit (resolvedTitle run msg)).1 ≠ "" := by
      intro h
      rw [h] at hmem
      exact hempty hmem
    have hcon : cfg.exclude_types.contains (_parse_commit (resolvedTitle run msg)).1
        = true := List.elem_eq_true_of_mem hmem
    unfold _entry_from_commit
    simp [hskip, hbr, hne, hcon, hmem]

/-- Witness for `c6_breaking_never_excluded`: an excluded type still
surfaces when the description says BREAKING, and is dropped otherwise. -/
theorem c6_breaking_never_excluded_witness :
    _entry_from_commit runNoLookup "feat: BREAKING overhaul" cfgExclFeat ≠ none
    ∧ _entry_from_commit runNoLookup "feat: plain feature" cfgExclFeat
        = none :=
  ⟨(c6_breaking_never_excluded runNoLookup "feat: BREAKING overhaul"
      cfgExclFeat).1 (by decide) (by decide),
   (c6_breaking_never_excluded runNoLookup "feat: plain feature"
      cfgExclFeat).2 (by decide) (by decide) (by decide) (by decide)⟩

/-- The commit-message list of the end-to-end scenario. -/
def scenarioMessages : List String :=
  ["feat: add retry logic (#42)", "fix!: correct off-by-one (#43)",
   "Merge pull request #44 from x/y", "chore: bump deps (#45)"]

/-- The configuration of the end-to-end scenario: no excluded types. -/
def cfgScenario : Config :=
  { version := "v1.3.0", repo_url := "URL", tag_prefix := "",
    exclude_types := [], today := "2024-01-01" }

/-- C8, counterexample. The scenario pipeline yields three entries,
one of which is an Added entry — not the two entries with zero Added
entries the claim states. -/
theorem c8_scenario_counterexample :
    (collectEntriesFromMessages runNoLookup scenarioMessages cfgScenario).length
        = 3
    ∧ ((collectEntriesFromMessages runNoLookup scenarioMessages
          cfgScenario).filter (fun e => e.category == "Added")).length = 1 := by
  constructor
  · decide
  · decide

/-- C8, amended. The scenario pipeline yields three entries: one
Added ("Add retry logic"), one Breaking Changes ("Correct off-by-one"),
one Changed from the chore commit, and zero Fixed entries; the merge
commit is dropped entirely before classification. -/
theorem c8_scenario_amended :
    collectEntriesFromMessages runNoLookup scenarioMessages cfgScenario =
      [{ category := "Added", text := "- Add retry logic ([#42](URL/pull/42))" },
       { category := "Breaking Changes",
         text := "- Correct off-by-one ([#43](URL/pull/43))" },
       { category := "Changed", text := "- Bump deps ([#45](URL/pull/45))" }]
    ∧ _entry_from_commit runNoLookup "Merge pull request #44 from x/y"
        cfgScenario = none
    ∧ ((collectEntriesFromMessages runNoLookup scenarioMessages
          cfgScenario).filter (fun e => e.category == "Fixed")).length = 0 := by
  refine ⟨by decide, by decide, by decide⟩

/-- The function `_entry_from_commit` depends on the oracle only through the resolved
title. -/
theorem entry_run_congr (run run' : List String → CmdResult) (msg : String)
    (cfg : Config) (h : resolvedTitle run msg = resolvedTitle run' msg) :
    _entry_from_commit run msg cfg = _entry_from_commit run' msg cfg := by
  unfold _entry_from_commit
  rw [h]

/-- C9. A trailing ` (#<digits>)` marker triggers the external title
lookup for exactly that number, and any lookup failure (non-zero exit or
empty stripped output) silently falls back to the raw commit message;
without a marker no lookup call is made and the raw message is used. -/
theorem c9_lookup_degrades_gracefully :
    ∀ (msg : String) (cfg : Config),
      (prNumber msg.data = none →
        (∀ run, resolvedTitle run msg = msg)
        ∧ (∀ run run',
            _entry_from_commit run msg cfg = _entry_from_commit run' msg cfg))
      ∧ (∀ run n, (prNumber msg.data).map String.mk = some n →
          ((run (ghArgs n)).returncode ≠ 0 ∨
            pyStrip (run (ghArgs n)).stdout = "") →
          resolvedTitle run msg = msg)
      ∧ (∀ run run' n, (prNumber msg.data).map String.mk = some n →
          run (ghArgs n) = run' (ghArgs n) →
          _entry_from_commit run msg cfg = _entry_from_commit run' msg cfg) := by
  intro msg cfg
  refine ⟨?_, ?_, ?_⟩
  · intro h
    have hall : ∀ run, resolvedTitle run msg = msg := by
      intro run
      unfold resolvedTitle
      rw [h]
      simp
    refine ⟨hall, ?_⟩
    intro run run'
    exact entry_run_congr run run' msg cfg ((hall run).trans (hall run').symm)
  · intro run n h hfail
    have hcmd : _run_cmd run (ghArgs n) = "" := by
      unfold _run_cmd
      rcases hfail with hrc | hout
      · rw [if_pos (by simpa using hrc)]
      · by_cases hrc : (run (ghArgs n)).returncode = 0
        · rw [if_neg (by simpa using hrc)]
          exact hout
        · rw [if_pos (by simpa using hrc)]
    have hfetch : _fetch_pr_title run n = none := by
      unfold _fetch_pr_title
      rw [hcmd]
      simp
    unfold resolvedTitle
    rw [h]
    simp [hfetch]
  · intro run run' n h hrun
    have hfetch : _fetch_pr_title run n = _fetch_pr_title run' n := by
      unfold _fetch_pr_title _run_cmd
      rw [hrun]
    refine entry_run_congr run run' msg cfg ?_
    unfold resolvedTitle
    rw [h]
    simp [hfetch]

/-- Witness for `c9_lookup_degrades_gracefully`: a failing lookup falls
back to the raw message with a marker present, and a marker-free message
is oracle-independent. -/
theorem c9_lookup_degrades_witness :
    resolvedTitle runNoLookup "fix: handle empty input (#7)"
        = "fix: handle empty input (#7)"
    ∧ resolvedTitle runNoLookup "no marker here" = "no marker here" :=
  ⟨(c9_lookup_degrades_gracefully "fix: handle empty input (#7)"
      cfgScenario).2.1 runNoLookup "7" (by decide) (Or.inl (by decide)),
   ((c9_lookup_degrades_gracefully "no marker here" cfgScenario).1
      (by decide)).1 runNoLookup⟩

end Changelog
